import Mathlib

/-!
Verification development for the CNNFCN_PatternSeries training/evaluation
pipeline (running.py, main.py, models/PSEncoder.py): runner loss aggregation,
validation/checkpoint selection, the learning-rate schedule, the OpenMax
open-set extension, and the encoder's final Softmax layer.

Scalars are modelled as exact rationals.  Python operations that can raise an
exception at runtime (float division by zero, formatting None, dictionary
lookup of a missing key, NotImplementedError) are modelled as `Option`/`Except`
values, with an explicit error constructor per exception class.
-/

/-- Python exception classes raised by the modelled code paths. -/
inductive PyError where
  | typeError : PyError
  | keyError : PyError
  | zeroDivisionError : PyError
  | notImplementedError : PyError
deriving DecidableEq, Repr

/-! ## Runner loss aggregation (running.py)

A batch is modelled by the per-active-element (unsupervised) or per-sample
(supervised) loss vector returned by the loss module, i.e. the `loss` tensor of
`train_epoch`/`evaluate`.  `batch_loss = torch.sum(loss)` and the epoch
accumulators `epoch_loss += batch_loss.item()`,
`total_active_elements += len(loss)` (resp. `total_samples += len(loss)`) are
folded exactly as in the source; the final recorded metric is
`epoch_loss / total_active_elements`, a Python float division that raises
`ZeroDivisionError` when the denominator is zero (modelled as `none`). -/

/-- Model of `UnsupervisedRunner.train_epoch` (running.py lines 269-317): the `loss`
value recorded in the epoch metrics. -/
def UnsupervisedRunner.train_epoch_loss (batches : List (List ℚ)) : Option ℚ :=
  let acc := batches.foldl
    (fun acc loss => (acc.1 + loss.sum, acc.2 + loss.length)) ((0 : ℚ), (0 : ℕ))
  if acc.2 = 0 then none else some (acc.1 / (acc.2 : ℚ))

/-- Model of `SupervisedRunner.train_epoch` (running.py lines 392-466): the `loss`
value recorded in the epoch metrics; the accumulation is the same fold with
per-sample losses and `total_samples`. -/
def SupervisedRunner.train_epoch_loss (batches : List (List ℚ)) : Option ℚ :=
  let acc := batches.foldl
    (fun acc loss => (acc.1 + loss.sum, acc.2 + loss.length)) ((0 : ℚ), (0 : ℕ))
  if acc.2 = 0 then none else some (acc.1 / (acc.2 : ℚ))

/-- Model of `UnsupervisedRunner.evaluate` (running.py lines 319-374): the recorded
epoch loss.  Inside the loop, `batch_loss = torch.sum(loss).cpu().item()` is a
Python float and `mean_loss = batch_loss / len(loss)` raises
`ZeroDivisionError` on a batch with zero active elements (an empty `loss`
vector), aborting the pass; so does the final division when the epoch total is
zero. -/
def UnsupervisedRunner.evaluate_loss (batches : List (List ℚ)) : Option ℚ := do
  let acc ← batches.foldlM
    (fun acc loss =>
      if loss.length = 0 then none
      else some (acc.1 + loss.sum, acc.2 + loss.length))
    ((0 : ℚ), (0 : ℕ))
  if acc.2 = 0 then none else some (acc.1 / (acc.2 : ℚ))

/-- The count-weighted epoch mean stated by the spec:
`sum(batch total losses) / sum(batch active counts)`. -/
def weightedEpochMean (batches : List (List ℚ)) : ℚ :=
  (batches.map List.sum).sum / (((batches.map List.length).sum : ℕ) : ℚ)

/-- The unweighted arithmetic mean of the per-batch mean losses, the
aggregation the spec says is NOT used. -/
def meanOfBatchMeans (batches : List (List ℚ)) : ℚ :=
  (batches.map (fun loss => loss.sum / (loss.length : ℚ))).sum
    / ((batches.length : ℕ) : ℚ)

/-! ## Validation / checkpoint selection (running.py `validate`, lines 176-222)

An aggregate-metrics dictionary is an insertion-ordered association list from
metric name to an optional rational (`none` models Python `None`).  The logging
loop runs `'{}: {:8f} | '.format(k, v)` on every entry, which raises
`TypeError` when `v` is `None`; only afterwards is
`aggr_metrics[config['key_metric']]` compared against `best_value`. -/

def NEG_METRICS : List String := ["loss"]

/-- Result of a completed `validate` call: the aggregate metrics, the updated
best-metrics dictionary, the updated best value, and whether the best
checkpoint (`model_best.pth`) and prediction dump were written. -/
structure ValOut where
  aggr : List (String × Option ℚ)
  bestMetrics : List (String × Option ℚ)
  bestValue : ℚ
  savedBest : Bool
deriving DecidableEq, Repr

/-- Lookup `aggr_metrics[key]` as a Python dict lookup: `none` models `KeyError`. -/
def lookupMetric (aggr : List (String × Option ℚ)) (key : String) :
    Option (Option ℚ) :=
  (aggr.find? (fun kv => kv.1 == key)).map Prod.snd

/-- Model of `validate` (running.py lines 176-222), with the evaluation pass already
summarised by its aggregate metrics. -/
def validate (key_metric : String) (aggr_metrics best_metrics : List (String × Option ℚ))
    (best_value : ℚ) : Except PyError ValOut :=
  if aggr_metrics.any (fun kv => kv.2.isNone) then
    Except.error PyError.typeError
  else
    match lookupMetric aggr_metrics key_metric with
    | none => Except.error PyError.keyError
    | some none => Except.error PyError.typeError
    | some (some v) =>
      let condition : Bool :=
        if key_metric ∈ NEG_METRICS then decide (v < best_value)
        else decide (v > best_value)
      if condition then
        Except.ok ⟨aggr_metrics, aggr_metrics, v, true⟩
      else
        Except.ok ⟨aggr_metrics, best_metrics, best_value, false⟩

/-! ## Pipeline factory (running.py lines 28-36, main.py line 213) -/

/-- The dataset/collate/runner combination returned by the factory; the only
implemented combination is (ClassiregressionDataset, collate_superv,
SupervisedRunner). -/
inductive PipelineCombo where
  | supervised : PipelineCombo
deriving DecidableEq, Repr

/-- Model of `pipeline_factory` (running.py lines 28-36). -/
def pipeline_factory (task : String) : Except PyError PipelineCombo :=
  if task = "classification" ∨ task = "regression" then
    Except.ok PipelineCombo.supervised
  else
    Except.error PyError.notImplementedError

/-- Model of `main` (main.py): the factory is invoked at setup (line 213) before any
data loader is built, so a factory error propagates before any batch is
processed; afterwards training epochs consume batches through the returned
runner. -/
def main_setup (task : String) (batches : List (List ℚ)) :
    Except PyError (PipelineCombo × Option ℚ) := do
  let combo ← pipeline_factory task
  Except.ok (combo, SupervisedRunner.train_epoch_loss batches)

/-! ## Theorems -/

/-- Accumulation lemma: the runner fold computes the componentwise sums. -/
theorem epoch_fold_eq (batches : List (List ℚ)) (p : ℚ × ℕ) :
    batches.foldl (fun acc loss => (acc.1 + loss.sum, acc.2 + loss.length)) p
      = (p.1 + (batches.map List.sum).sum, p.2 + (batches.map List.length).sum) := by
  induction batches generalizing p with
  | nil => simp
  | cons b bs ih => simp [ih, add_assoc]

/-- The recorded train-epoch loss is the count-weighted mean (both runners
share the accumulation). -/
theorem train_epoch_loss_eq_weighted (batches : List (List ℚ))
    (htot : (batches.map List.length).sum ≠ 0) :
    UnsupervisedRunner.train_epoch_loss batches = some (weightedEpochMean batches) := by
  unfold UnsupervisedRunner.train_epoch_loss
  rw [epoch_fold_eq]
  simp only [zero_add]
  rw [if_neg htot]
  rfl

/-- C1: for every training epoch whose batches have unequal active-element /
sample counts, the recorded `loss` equals the count-weighted mean
`sum(batch total losses) / sum(batch active counts)` for both runners, and on
a concrete such epoch this differs from the unweighted mean of the per-batch
mean losses. -/
theorem train_epoch_loss_is_weighted_mean (batches : List (List ℚ))
    (h : ∃ b1 ∈ batches, ∃ b2 ∈ batches, b1.length ≠ b2.length) :
    UnsupervisedRunner.train_epoch_loss batches = some (weightedEpochMean batches) ∧
    SupervisedRunner.train_epoch_loss batches = some (weightedEpochMean batches) ∧
    UnsupervisedRunner.train_epoch_loss [[0], [2, 2, 2]]
      ≠ some (meanOfBatchMeans [[0], [2, 2, 2]]) := by
  have htot : (batches.map List.length).sum ≠ 0 := by
    obtain ⟨b1, hb1, b2, hb2, hne⟩ := h
    have hle1 : b1.length ≤ (batches.map List.length).sum :=
      List.single_le_sum (fun x _ => Nat.zero_le x) _ (List.mem_map_of_mem List.length hb1)
    have hle2 : b2.length ≤ (batches.map List.length).sum :=
      List.single_le_sum (fun x _ => Nat.zero_le x) _ (List.mem_map_of_mem List.length hb2)
    omega
  refine ⟨train_epoch_loss_eq_weighted batches htot, ?_, ?_⟩
  · have : SupervisedRunner.train_epoch_loss batches
        = UnsupervisedRunner.train_epoch_loss batches := rfl
    rw [this]
    exact train_epoch_loss_eq_weighted batches htot
  · norm_num [UnsupervisedRunner.train_epoch_loss, meanOfBatchMeans]

/-- C1 witness: a concrete epoch with batch counts 1 and 3. -/
theorem train_epoch_loss_is_weighted_mean_witness :
    UnsupervisedRunner.train_epoch_loss [[0], [2, 2, 2]]
        = some (weightedEpochMean [[0], [2, 2, 2]]) ∧
      weightedEpochMean [[0], [2, 2, 2]] = 3 / 2 := by
  refine ⟨?_, by norm_num [weightedEpochMean]⟩
  exact (train_epoch_loss_is_weighted_mean [[0], [2, 2, 2]]
    ⟨[0], by simp, [2, 2, 2], by simp, by simp⟩).1

/-- C7: a batch whose combined target/padding mask leaves zero active elements
is NOT excluded from the mean computation: the per-batch mean-loss division
`batch_loss / len(loss)` in `UnsupervisedRunner.evaluate` divides by the zero
count and raises `ZeroDivisionError`, aborting the pass, whereas excluding the
degenerate batch would have produced the mean of the remaining batch. -/
theorem evaluate_degenerate_batch_not_guarded :
    UnsupervisedRunner.evaluate_loss [[1, 2], []] = none ∧
      UnsupervisedRunner.evaluate_loss [[1, 2]] = some (3 / 2) := by
  constructor
  · rfl
  · norm_num [UnsupervisedRunner.evaluate_loss, List.foldlM]

/-- C2: with every metric value present (no `None`) and the key metric bound
to value `v`, `validate` completes; the best checkpoint is saved, the best
metrics replaced and the best value updated exactly when `v` improves on
`best_value` in the direction given by membership in `NEG_METRICS` (which
contains exactly `loss`): strictly smaller for `loss`, strictly larger
otherwise; equality never triggers replacement, and on non-improvement the
returned best metrics and best value are unchanged. -/
theorem validate_best_selection (key : String)
    (aggr bm : List (String × Option ℚ)) (bv v : ℚ)
    (hall : aggr.all (fun kv => kv.2.isSome))
    (hkey : lookupMetric aggr key = some (some v)) :
    ∃ r, validate key aggr bm bv = Except.ok r ∧
      (∀ k, k ∈ NEG_METRICS ↔ k = "loss") ∧
      (r.savedBest = true ↔ (if key ∈ NEG_METRICS then v < bv else bv < v)) ∧
      (v = bv → r.savedBest = false) ∧
      (r.savedBest = true → r.bestMetrics = aggr ∧ r.bestValue = v) ∧
      (r.savedBest = false → r.bestMetrics = bm ∧ r.bestValue = bv) := by
  have hnone : aggr.any (fun kv => kv.2.isNone) = false := by
    simp only [List.all_eq_true] at hall
    simp only [List.any_eq_false]
    intro kv hkv
    simpa [Option.isNone_iff_eq_none, Option.isSome_iff_ne_none] using hall kv hkv
  unfold validate
  rw [hnone, if_neg (by simp), hkey]
  by_cases hmem : key ∈ NEG_METRICS
  · by_cases hlt : v < bv
    · refine ⟨⟨aggr, aggr, v, true⟩, by simp [hmem, hlt], by simp [NEG_METRICS],
        by simp [hmem, hlt], ?_, fun _ => ⟨rfl, rfl⟩, by simp⟩
      intro he
      rw [he] at hlt
      exact absurd hlt (lt_irrefl bv)
    · exact ⟨⟨aggr, bm, bv, false⟩, by simp [hmem, hlt], by simp [NEG_METRICS],
        by simp [hmem, hlt], fun _ => rfl, by simp, fun _ => ⟨rfl, rfl⟩⟩
  · by_cases hgt : bv < v
    · refine ⟨⟨aggr, aggr, v, true⟩, by simp [hmem, hgt], by simp [NEG_METRICS],
        by simp [hmem, hgt], ?_, fun _ => ⟨rfl, rfl⟩, by simp⟩
      intro he
      rw [he] at hgt
      exact absurd hgt (lt_irrefl bv)
    · exact ⟨⟨aggr, bm, bv, false⟩, by simp [hmem, hgt], by simp [NEG_METRICS],
        by simp [hmem, hgt], fun _ => rfl, by simp, fun _ => ⟨rfl, rfl⟩⟩

/-- C2 witness: key metric `loss` with a strictly smaller new value. -/
theorem validate_best_selection_witness :
    ∃ r, validate "loss" [("loss", some (1 : ℚ))] [] 10 = Except.ok r ∧
      (∀ k, k ∈ NEG_METRICS ↔ k = "loss") ∧
      (r.savedBest = true ↔
        (if "loss" ∈ NEG_METRICS then (1 : ℚ) < 10 else (10 : ℚ) < 1)) ∧
      ((1 : ℚ) = 10 → r.savedBest = false) ∧
      (r.savedBest = true → r.bestMetrics = [("loss", some (1 : ℚ))] ∧ r.bestValue = 1) ∧
      (r.savedBest = false → r.bestMetrics = [] ∧ r.bestValue = 10) :=
  validate_best_selection "loss" [("loss", some (1 : ℚ))] [] 10 1 (by simp) rfl

/-- C8 counterexample: an aggregate-metrics mapping containing a `None` value
makes `validate` raise `TypeError` (from `'{:8f}'.format(None)` in the logging
loop) instead of completing with a sentinel-formatted value. -/
theorem validate_none_metric_crashes :
    validate "loss" [("epoch", none), ("loss", some (1 : ℚ))] [] 10
      = Except.error PyError.typeError := rfl

/-- C8 amended: whenever the aggregate metrics mapping contains a `None` value
for some metric, `validate` does not complete: the logging loop raises
`TypeError` before the best-value comparison, so no checkpoint decision is
made.  (`None` is formatted as a sentinel only in the test-only summary path
of main.py, and the one-off `evaluate` wrapper skips `None` values.) -/
theorem validate_none_metric_raises (key : String)
    (aggr bm : List (String × Option ℚ)) (bv : ℚ)
    (h : ∃ kv ∈ aggr, kv.2 = none) :
    validate key aggr bm bv = Except.error PyError.typeError := by
  have hany : aggr.any (fun kv => kv.2.isNone) = true := by
    obtain ⟨kv, hkv, hnone⟩ := h
    simp only [List.any_eq_true]
    exact ⟨kv, hkv, by simp [hnone]⟩
  unfold validate
  rw [hany]
  simp

/-- C8 amended witness: a mapping whose `epoch` entry is `None`. -/
theorem validate_none_metric_raises_witness :
    validate "loss" [("epoch", none), ("loss", some (1 : ℚ))] [] 10
        = Except.error PyError.typeError :=
  validate_none_metric_raises "loss" [("epoch", none), ("loss", some (1 : ℚ))] [] 10
    ⟨("epoch", none), by simp, rfl⟩

/-- C9: a `task` other than `classification` or `regression` makes the
pipeline factory (and hence `main`'s setup, which calls it before building any
data loader) fail with `NotImplementedError`, independently of the batches;
for `classification` and `regression` the factory returns the supervised
dataset/collate/runner combination. -/
theorem pipeline_factory_task_check (task : String) :
    ((task ≠ "classification" ∧ task ≠ "regression") →
      ∀ batches, main_setup task batches = Except.error PyError.notImplementedError) ∧
    ((task = "classification" ∨ task = "regression") →
      pipeline_factory task = Except.ok PipelineCombo.supervised) := by
  constructor
  · intro h batches
    have hf : pipeline_factory task = Except.error PyError.notImplementedError := by
      unfold pipeline_factory
      rw [if_neg]
      push_neg
      exact h
    unfold main_setup
    rw [hf]
    rfl
  · intro h
    unfold pipeline_factory
    rw [if_pos h]

/-- C9 witness: the unimplemented task `imputation` fails at setup regardless
of the batch stream; `classification` succeeds. -/
theorem pipeline_factory_task_check_witness :
    main_setup "imputation" [[1, 2]] = Except.error PyError.notImplementedError ∧
      pipeline_factory "classification" = Except.ok PipelineCombo.supervised :=
  ⟨(pipeline_factory_task_check "imputation").1 (by simp) [[1, 2]],
    (pipeline_factory_task_check "classification").2 (Or.inl rfl)⟩

/-! ## Learning-rate schedule (main.py lines 362-370)

Per epoch, after training and validation, `main` checks
`epoch == config['lr_step'][lr_step]`; on a milestone it first persists a
checkpoint tagged with that epoch (`model_{epoch}.pth`), then multiplies the
current learning rate by `config['lr_factor'][lr_step]`, advances the
milestone pointer only while `lr_step < len(config['lr_step']) - 1` (clamping
it at the last index), and writes the new rate into every optimizer parameter
group, so the new rate takes effect from the next epoch.  An out-of-range
index into the milestone or factor sequence would be an `IndexError`,
modelled as `none`. -/

/-- Learning-rate bookkeeping carried across epochs by `main`: the scalar
`lr`, the milestone pointer `lr_step`, the per-parameter-group rates, and the
list of epochs for which a milestone-tagged checkpoint was written. -/
structure LrState where
  lr : ℚ
  lrStepIdx : ℕ
  paramGroups : List ℚ
  checkpoints : List ℕ
deriving DecidableEq, Repr

/-- One epoch of the learning-rate scheduling block (main.py lines 362-370). -/
def lr_schedule_step (lr_steps : List ℕ) (lr_factors : List ℚ) (epoch : ℕ)
    (s : LrState) : Option LrState :=
  match lr_steps.get? s.lrStepIdx with
  | none => none
  | some milestone =>
    if epoch = milestone then
      match lr_factors.get? s.lrStepIdx with
      | none => none
      | some factor =>
        let saved := s.checkpoints ++ [epoch]
        let newLr := s.lr * factor
        let newIdx :=
          if s.lrStepIdx < lr_steps.length - 1 then s.lrStepIdx + 1 else s.lrStepIdx
        some ⟨newLr, newIdx, s.paramGroups.map (fun _ => newLr), saved⟩
    else some s

/-- The scheduling block folded over the epochs of the training loop
(main.py line 312: epochs run from `start_epoch + 1` to `config["epochs"]`). -/
def run_lr_schedule (lr_steps : List ℕ) (lr_factors : List ℚ) (epochs : List ℕ)
    (s : LrState) : Option LrState :=
  epochs.foldlM (fun st e => lr_schedule_step lr_steps lr_factors e st) s

/-- A non-milestone epoch leaves the learning-rate state unchanged. -/
theorem lr_schedule_step_skip (lr_steps : List ℕ) (lr_factors : List ℚ) (e : ℕ)
    (s : LrState) (m : ℕ) (hm : lr_steps.get? s.lrStepIdx = some m) (hne : e ≠ m) :
    lr_schedule_step lr_steps lr_factors e s = some s := by
  unfold lr_schedule_step
  rw [hm]
  simp [hne]

/-- A run over epochs that all avoid the currently pointed-at milestone is the
identity. -/
theorem run_lr_schedule_skip (lr_steps : List ℕ) (lr_factors : List ℚ)
    (es : List ℕ) (s : LrState) (m : ℕ)
    (hm : lr_steps.get? s.lrStepIdx = some m) (hne : ∀ e ∈ es, e ≠ m) :
    run_lr_schedule lr_steps lr_factors es s = some s := by
  induction es with
  | nil => rfl
  | cons e es ih =>
    unfold run_lr_schedule
    rw [List.foldlM_cons,
      lr_schedule_step_skip lr_steps lr_factors e s m hm (hne e (by simp))]
    simpa [run_lr_schedule] using ih (fun x hx => hne x (by simp [hx]))

/-- Runs compose over concatenated epoch lists. -/
theorem run_lr_schedule_append (lr_steps : List ℕ) (lr_factors : List ℚ)
    (l1 l2 : List ℕ) (s : LrState) :
    run_lr_schedule lr_steps lr_factors (l1 ++ l2) s
      = (run_lr_schedule lr_steps lr_factors l1 s).bind
          (run_lr_schedule lr_steps lr_factors l2) := by
  simp only [run_lr_schedule, List.foldlM_append]
  rfl

/-- Epoch 10 from the initial state: checkpoint 10 written, then lr halved and
written to every parameter group, pointer advanced to 1. -/
theorem lr_schedule_step_at_10 (pgs : List ℚ) :
    lr_schedule_step [10, 20] [1 / 2, 1 / 10] 10 ⟨1, 0, pgs, []⟩
      = some ⟨1 / 2, 1, pgs.map (fun _ => (1 / 2 : ℚ)), [10]⟩ := by
  unfold lr_schedule_step
  norm_num

/-- Epoch 20 from the post-epoch-10 state: checkpoint 20 written, lr scaled by
1/10, pointer clamped at the last index 1. -/
theorem lr_schedule_step_at_20 (pgs : List ℚ) :
    lr_schedule_step [10, 20] [1 / 2, 1 / 10] 20
        ⟨1 / 2, 1, pgs.map (fun _ => (1 / 2 : ℚ)), [10]⟩
      = some ⟨1 / 20, 1, pgs.map (fun _ => (1 / 20 : ℚ)), [10, 20]⟩ := by
  unfold lr_schedule_step
  norm_num [List.map_map, Function.comp]

/-- C3: with milestones `[10, 20]`, factors `[0.5, 0.1]` and starting lr 1,
for any list of optimizer parameter groups: after epoch 10 the lr and every
parameter group equal 1/2 (and the milestone checkpoint tagged 10 was written
at that epoch, before the change takes effect for epoch 11); after epoch 20
they equal 1/20 with the pointer clamped at the last index 1; and running on
to epoch 30 never indexes past the end of the sequences. -/
theorem lr_schedule_milestones (pgs : List ℚ) :
    (run_lr_schedule [10, 20] [1 / 2, 1 / 10] (List.range' 1 10) ⟨1, 0, pgs, []⟩
        = some ⟨1 / 2, 1, pgs.map (fun _ => (1 / 2 : ℚ)), [10]⟩) ∧
    (run_lr_schedule [10, 20] [1 / 2, 1 / 10] (List.range' 1 20) ⟨1, 0, pgs, []⟩
        = some ⟨1 / 20, 1, pgs.map (fun _ => (1 / 20 : ℚ)), [10, 20]⟩) ∧
    (run_lr_schedule [10, 20] [1 / 2, 1 / 10] (List.range' 1 30) ⟨1, 0, pgs, []⟩
        = some ⟨1 / 20, 1, pgs.map (fun _ => (1 / 20 : ℚ)), [10, 20]⟩) := by
  have hskip1 : run_lr_schedule [10, 20] [1 / 2, 1 / 10] (List.range' 1 9)
      ⟨1, 0, pgs, []⟩ = some ⟨1, 0, pgs, []⟩ :=
    run_lr_schedule_skip _ _ _ _ 10 rfl (by decide)
  have hrun10 : run_lr_schedule [10, 20] [1 / 2, 1 / 10] (List.range' 1 10)
      ⟨1, 0, pgs, []⟩ = some ⟨1 / 2, 1, pgs.map (fun _ => (1 / 2 : ℚ)), [10]⟩ := by
    rw [show List.range' 1 10 = List.range' 1 9 ++ [10] by decide,
      run_lr_schedule_append, hskip1]
    show run_lr_schedule _ _ [10] _ = _
    unfold run_lr_schedule
    rw [List.foldlM_cons, lr_schedule_step_at_10 pgs]
    rfl
  have hskip2 : run_lr_schedule [10, 20] [1 / 2, 1 / 10] (List.range' 11 9)
      ⟨1 / 2, 1, pgs.map (fun _ => (1 / 2 : ℚ)), [10]⟩
      = some ⟨1 / 2, 1, pgs.map (fun _ => (1 / 2 : ℚ)), [10]⟩ :=
    run_lr_schedule_skip _ _ _ _ 20 rfl (by decide)
  have hrun20 : run_lr_schedule [10, 20] [1 / 2, 1 / 10] (List.range' 1 20)
      ⟨1, 0, pgs, []⟩
      = some ⟨1 / 20, 1, pgs.map (fun _ => (1 / 20 : ℚ)), [10, 20]⟩ := by
    rw [show List.range' 1 20 = List.range' 1 10 ++ (List.range' 11 9 ++ [20]) by decide,
      run_lr_schedule_append, hrun10]
    show run_lr_schedule _ _ (List.range' 11 9 ++ [20]) _ = _
    rw [run_lr_schedule_append, hskip2]
    show run_lr_schedule _ _ [20] _ = _
    unfold run_lr_schedule
    rw [List.foldlM_cons, lr_schedule_step_at_20 pgs]
    rfl
  refine ⟨hrun10, hrun20, ?_⟩
  rw [show List.range' 1 30 = List.range' 1 20 ++ List.range' 21 10 by decide,
    run_lr_schedule_append, hrun20]
  show run_lr_schedule _ _ (List.range' 21 10) _ = _
  exact run_lr_schedule_skip _ _ _ _ 20 rfl (by decide)

/-! ## Softmax

`torch.nn.functional.softmax` / `nn.Softmax(dim=1)` computes
`exp(x_i) / sum_j exp(x_j)` per row.  The embedding is parametric in the
elementwise function `f`; every property proved below assumes only what the
real exponential provides, namely that `f` is everywhere positive. -/

/-- One softmax row: `f x / sum (map f v)` per component, with `f` standing
for the exponential. -/
def softmax (f : ℚ → ℚ) (v : List ℚ) : List ℚ :=
  v.map (fun x => f x / (v.map f).sum)

/-- A softmax row over a nonempty vector sums to 1 (for positive `f`). -/
theorem softmax_sum_eq_one (f : ℚ → ℚ) (hf : ∀ x, 0 < f x) (v : List ℚ)
    (hv : v ≠ []) : (softmax f v).sum = 1 := by
  have hS : 0 < (v.map f).sum :=
    List.sum_pos (v.map f) (by
      intro x hx
      obtain ⟨y, _, rfl⟩ := List.mem_map.mp hx
      exact hf y) (by simpa using hv)
  unfold softmax
  simp only [div_eq_mul_inv]
  rw [List.sum_map_mul_right]
  exact mul_inv_cancel₀ (ne_of_gt hS)

/-- Every softmax entry is non-negative (for positive `f`). -/
theorem softmax_nonneg (f : ℚ → ℚ) (hf : ∀ x, 0 < f x) (v : List ℚ) :
    ∀ p ∈ softmax f v, 0 ≤ p := by
  intro p hp
  obtain ⟨x, hx, rfl⟩ := List.mem_map.mp hp
  rcases List.exists_mem_of_ne_nil v (by rintro rfl; simp at hx) with ⟨y, _⟩
  have hS : 0 < (v.map f).sum :=
    List.sum_pos (v.map f) (by
      intro z hz
      obtain ⟨u, _, rfl⟩ := List.mem_map.mp hz
      exact hf u) (by
      intro hnil
      rw [List.map_eq_nil] at hnil
      subst hnil
      simp at hx)
  exact le_of_lt (div_pos (hf x) hS)

/-- A softmax row has the length of its input. -/
theorem softmax_length (f : ℚ → ℚ) (v : List ℚ) :
    (softmax f v).length = v.length := by
  simp [softmax]

/-! ## OpenMax scoring

Modelled from the spec: `get_scores` lives in `utils/openmax.py`, which is not
among this repository's source files; only its caller
`SupervisedRunner.openmax` (running.py lines 613-651) is.  Following spec
section 4.4: for each sample's activation vector, the known-class logits are
revised downward proportionally to per-channel revision weights obtained from
the Weibull CDF, the leaked mass is accumulated into an unknown-class
pseudo-logit appended as slot `numClasses`, and a softmax is taken over the
resulting `numClasses + 1` vector; the unmodified softmax over the original
`numClasses` logits is returned alongside.  The weight computation itself is
abstracted as a function `weights` from the activation vector to the
per-channel revision weights. -/

/-- The revised `numClasses + 1` activation vector: each logit scaled by
`1 - w`, with the leaked mass `sum (logit * w)` as the unknown pseudo-logit. -/
def revisedActivation (numClasses : ℕ) (av w : List ℚ) : List ℚ :=
  let logits := av.take numClasses
  let wts := w.take numClasses
  (List.zipWith (fun l wi => l * (1 - wi)) logits wts)
    ++ [(List.zipWith (fun l wi => l * wi) logits wts).sum]

/-- Modelled from the spec: `get_scores(weibullModel, activationVectors,
numClasses, ...)` of `utils/openmax.py` (absent from src/), returning the
OpenMax probability vectors and the plain-softmax probability vectors for a
batch of activation vectors. -/
def get_scores (f : ℚ → ℚ) (weights : List ℚ → List ℚ) (numClasses : ℕ)
    (avs : List (List ℚ)) : List (List ℚ) × List (List ℚ) :=
  (avs.map (fun av => softmax f (revisedActivation numClasses av (weights av))),
   avs.map (fun av => softmax f (av.take numClasses)))

/-- C5: for every batch of activation vectors, every returned OpenMax vector
has length `numClasses + 1`, sums to 1 and is elementwise non-negative, and
every returned plain-softmax vector has length `numClasses`, sums to 1 and is
elementwise non-negative. -/
theorem get_scores_probability_vectors (f : ℚ → ℚ) (hf : ∀ x, 0 < f x)
    (weights : List ℚ → List ℚ) (numClasses : ℕ) (avs : List (List ℚ))
    (hnc : 0 < numClasses)
    (hlen : ∀ av ∈ avs, numClasses ≤ av.length)
    (hw : ∀ av ∈ avs, numClasses ≤ (weights av).length) :
    (∀ v ∈ (get_scores f weights numClasses avs).1,
        v.sum = 1 ∧ (∀ p ∈ v, 0 ≤ p) ∧ v.length = numClasses + 1) ∧
    (∀ v ∈ (get_scores f weights numClasses avs).2,
        v.sum = 1 ∧ (∀ p ∈ v, 0 ≤ p) ∧ v.length = numClasses) := by
  constructor
  · intro v hv
    obtain ⟨av, hav, rfl⟩ := List.mem_map.mp hv
    have hne : revisedActivation numClasses av (weights av) ≠ [] := by
      simp [revisedActivation]
    refine ⟨softmax_sum_eq_one f hf _ hne, softmax_nonneg f hf _, ?_⟩
    rw [softmax_length]
    simp only [revisedActivation, List.length_append, List.length_zipWith,
      List.length_take, List.length_cons, List.length_nil]
    rw [min_eq_left (hlen av hav), min_eq_left (hw av hav), min_self]
  · intro v hv
    obtain ⟨av, hav, rfl⟩ := List.mem_map.mp hv
    have hla : (av.take numClasses).length = numClasses := by
      rw [List.length_take]
      exact min_eq_left (hlen av hav)
    have hne : av.take numClasses ≠ [] := by
      intro hnil
      rw [hnil] at hla
      simp at hla
      omega
    exact ⟨softmax_sum_eq_one f hf _ hne, softmax_nonneg f hf _, by
      rw [softmax_length, hla]⟩

/-- C5 witness: two activation vectors, two known classes, a quadratic
stand-in for the exponential. -/
theorem get_scores_probability_vectors_witness :
    (∀ v ∈ (get_scores (fun x => x ^ 2 + 1) (fun _ => [0, 1 / 2]) 2
        [[1, 2, 5], [0, 3, 1]]).1,
        v.sum = 1 ∧ (∀ p ∈ v, 0 ≤ p) ∧ v.length = 2 + 1) ∧
    (∀ v ∈ (get_scores (fun x => x ^ 2 + 1) (fun _ => [0, 1 / 2]) 2
        [[1, 2, 5], [0, 3, 1]]).2,
        v.sum = 1 ∧ (∀ p ∈ v, 0 ≤ p) ∧ v.length = 2) :=
  get_scores_probability_vectors (fun x => x ^ 2 + 1)
    (fun x => by positivity) (fun _ => [0, 1 / 2]) 2 [[1, 2, 5], [0, 3, 1]]
    (by norm_num)
    (by intro av hav; fin_cases hav <;> simp)
    (by intro av hav; fin_cases hav <;> simp)

/-! ## Weibull tail fitting

Modelled from the spec: `weibull_tailfitting` lives in `utils/openmax.py`,
absent from src/; only its caller
`SupervisedRunner.make_weibull_from_trainsets` (running.py lines 598-611) is
present.  Following spec sections 4.4 and 7: per class, the distances are
sorted descending and the first `tailSize` are fitted; a class with fewer than
`tailSize` correctly classified samples is reported as a per-class fitting
failure — its entry is flagged invalid instead of being fitted on fewer
points — without crashing the caller. -/

/-- A per-class entry of the Weibull model: either flagged invalid, or fitted
from the descending-sorted top-`tailSize` distance tail (the fitted
(shape, scale, location) triple is a function of that tail). -/
inductive WeibullEntry where
  | invalid : WeibullEntry
  | fitted : List ℚ → WeibullEntry
deriving DecidableEq, Repr

/-- Modelled from the spec: `weibull_tailfitting(MAVs, distanceSets,
classLabels, tailSize)` of `utils/openmax.py` (absent from src/), one entry
per class. -/
def weibull_tailfitting (tailSize : ℕ) (distSets : List (List ℚ)) :
    List WeibullEntry :=
  distSets.map (fun d =>
    if d.length < tailSize then WeibullEntry.invalid
    else WeibullEntry.fitted ((d.insertionSort (· ≥ ·)).take tailSize))

/-- C6: a class whose distance set (one distance per correctly classified
sample) has fewer than `tailSize` elements gets the `invalid` flag in the
Weibull model — it is neither fitted on the fewer points nor does it crash the
caller: the model is total, with one entry per class. -/
theorem weibull_tailfitting_underpopulated (tailSize : ℕ)
    (distSets : List (List ℚ)) (i : ℕ) (d : List ℚ)
    (hd : distSets.get? i = some d) (hlt : d.length < tailSize) :
    (weibull_tailfitting tailSize distSets).get? i = some WeibullEntry.invalid ∧
      (weibull_tailfitting tailSize distSets).length = distSets.length := by
  constructor
  · unfold weibull_tailfitting
    rw [List.get?_map, hd]
    simp [hlt]
  · simp [weibull_tailfitting]

/-- C6 witness: tail size 20 on a class with only 5 correctly classified
samples. -/
theorem weibull_tailfitting_underpopulated_witness :
    (weibull_tailfitting 20 [[1, 2, 3, 4, 5]]).get? 0
        = some WeibullEntry.invalid ∧
      (weibull_tailfitting 20 [[1, 2, 3, 4, 5]]).length = 1 :=
  weibull_tailfitting_underpopulated 20 [[1, 2, 3, 4, 5]] 0 [1, 2, 3, 4, 5]
    rfl (by norm_num)

/-! ## PatternSeriesEncoder (models/PSEncoder.py)

The network: `x.view(batch, 1, -1)`, then
`Conv1d(1, 64, kernel_size=3, padding=1) → ReLU → MaxPool1d(2) →
Conv1d(64, 128, 3, padding=1) → ReLU → MaxPool1d(2)`, flatten, then
`Linear(128 * (input_size // 4), 256) → ReLU → Dropout(0.5) →
Linear(256, num_classes) → Softmax(dim=1)`.

Each layer is embedded over rational-valued channels.  Weights, biases, the
number of channels, and the dropout scaling mask (1 everywhere in eval mode;
0 or 1/(1-p) per element in train mode) are parameters, so the theorem covers
every parameterisation of the fixed topology. -/

/-- Elementwise ReLU. -/
def relu (v : List ℚ) : List ℚ := v.map (fun x => max x 0)

def dotProduct (w x : List ℚ) : ℚ := (List.zipWith (· * ·) w x).sum

/-- A fully connected layer with weight rows `W` and biases `b`. -/
def linear (W : List (List ℚ)) (b : List ℚ) (x : List ℚ) : List ℚ :=
  (List.range W.length).map (fun i => dotProduct (W.getD i []) x + b.getD i 0)

/-- One 1-d convolution channel: kernel size 3, padding 1, so the output
length equals the input length. -/
def conv1dSingle (w : List ℚ) (x : List ℚ) : List ℚ :=
  (List.range x.length).map (fun t =>
    let p := 0 :: (x ++ [0])
    w.getD 0 0 * p.getD t 0 + w.getD 1 0 * p.getD (t + 1) 0
      + w.getD 2 0 * p.getD (t + 2) 0)

def vecAdd (a b : List ℚ) : List ℚ := List.zipWith (· + ·) a b

/-- A `Conv1d` layer: `weights` indexed out-channel → in-channel → kernel tap,
summing the per-in-channel convolutions and adding the out-channel bias. -/
def conv1d (weights : List (List (List ℚ))) (biases : List ℚ)
    (chans : List (List ℚ)) (len : ℕ) : List (List ℚ) :=
  (List.range weights.length).map (fun o =>
    (((weights.getD o []).zip chans).map
        (fun wx => conv1dSingle wx.1 wx.2)).foldl vecAdd (List.replicate len 0)
      |>.map (fun y => y + biases.getD o 0))

/-- Model of `MaxPool1d(kernel_size=2)`: pairwise maxima, a trailing odd element is
dropped. -/
def maxPool2 : List ℚ → List ℚ
  | a :: b :: rest => max a b :: maxPool2 rest
  | _ => []

/-- Model of `Dropout` as an elementwise scaling mask: all-ones in eval mode, elements
0 or `1/(1-p)` in train mode. -/
def dropoutScale (mask : List ℚ) (x : List ℚ) : List ℚ :=
  (List.range x.length).map (fun i => x.getD i 0 * mask.getD i 1)

/-- Model of `PatternSeriesEncoder.forward` (models/PSEncoder.py lines 35-48), mapped
over the rows of the input batch, with `f` standing for the exponential inside
the final `nn.Softmax(dim=1)`. -/
def PatternSeriesEncoder.forward (f : ℚ → ℚ)
    (convW1 : List (List (List ℚ))) (convB1 : List ℚ)
    (convW2 : List (List (List ℚ))) (convB2 : List ℚ)
    (fcW1 : List (List ℚ)) (fcB1 : List ℚ)
    (fcW2 : List (List ℚ)) (fcB2 : List ℚ)
    (dropMask : List ℚ) (batch : List (List ℚ)) : List (List ℚ) :=
  batch.map (fun x =>
    let c1 := (conv1d convW1 convB1 [x] x.length).map relu
    let p1 := c1.map maxPool2
    let c2 := (conv1d convW2 convB2 p1 (x.length / 2)).map relu
    let p2 := c2.map maxPool2
    let flat := p2.join
    let h := relu (linear fcW1 fcB1 flat)
    let d := dropoutScale dropMask h
    let out := linear fcW2 fcB2 d
    softmax f out)

/-- C10: for every input batch and every parameterisation of the network with
at least one output class (`fcW2 ≠ []`), every row returned by
`PatternSeriesEncoder.forward` is elementwise non-negative and sums to 1 —
the final FCN layer is a `Softmax`, so the model emits probability rows, not
raw logits, and a downstream softmax renormalises already-normalised values. -/
theorem forward_rows_are_distributions (f : ℚ → ℚ) (hf : ∀ x, 0 < f x)
    (convW1 : List (List (List ℚ))) (convB1 : List ℚ)
    (convW2 : List (List (List ℚ))) (convB2 : List ℚ)
    (fcW1 : List (List ℚ)) (fcB1 : List ℚ)
    (fcW2 : List (List ℚ)) (fcB2 : List ℚ)
    (dropMask : List ℚ) (batch : List (List ℚ))
    (hnc : fcW2 ≠ []) :
    ∀ row ∈ PatternSeriesEncoder.forward f convW1 convB1 convW2 convB2
        fcW1 fcB1 fcW2 fcB2 dropMask batch,
      row.sum = 1 ∧ ∀ p ∈ row, 0 ≤ p := by
  intro row hrow
  obtain ⟨x, _, rfl⟩ := List.mem_map.mp hrow
  have hout : ∀ d : List ℚ, linear fcW2 fcB2 d ≠ [] := by
    intro d hnil
    have : (linear fcW2 fcB2 d).length = fcW2.length := by
      simp [linear]
    rw [hnil] at this
    exact hnc (List.eq_nil_of_length_eq_zero this.symm)
  exact ⟨softmax_sum_eq_one f hf _ (hout _), softmax_nonneg f hf _⟩

/-- C10 witness: a two-class instantiation on a length-4 input row. -/
theorem forward_rows_are_distributions_witness :
    (∀ row ∈ PatternSeriesEncoder.forward (fun x => x ^ 2 + 1)
        [[[1, 1, 1]]] [0] [[[1, 0, 1]]] [0] [[1]] [0] [[1], [2]] [0, 0]
        [1] [[1, 0, 2, 0]],
      row.sum = 1) ∧
    (∀ row ∈ PatternSeriesEncoder.forward (fun x => x ^ 2 + 1)
        [[[1, 1, 1]]] [0] [[[1, 0, 1]]] [0] [[1]] [0] [[1], [2]] [0, 0]
        [1] [[1, 0, 2, 0]],
      ∀ p ∈ row, 0 ≤ p) := by
  have h := forward_rows_are_distributions (fun x => x ^ 2 + 1)
    (fun x => by positivity)
    [[[1, 1, 1]]] [0] [[[1, 0, 1]]] [0] [[1]] [0] [[1], [2]] [0, 0]
    [1] [[1, 0, 2, 0]] (by simp)
  exact ⟨fun row hr => (h row hr).1, fun row hr => (h row hr).2⟩

/-! ## Mean Activation Vectors (running.py `make_weibull_from_trainsets`,
lines 561-611)

Per batch, the activation feature is `torch.cat([logits] + pooled latents, 1)`
per sample; then `predicted_category = torch.max(feature, dim=1)[1]` — the
argmax of the FULL concatenated feature vector, not of the classifier logits —
and `np.where(predicted_category == targets)` selects the samples kept for MAV
computation.  The kept `(tag, feature)` pairs of all batches are concatenated,
grouped by tag, and averaged with `torch.mean(..., dim=0)`. -/

/-- One training sample as seen by `make_weibull_from_trainsets`: the model's
classifier logits, the concatenation of the pooled (`AdaptiveAvgPool1d(1)`)
intermediate-layer representations, and the true label. -/
structure TrainSample where
  logits : List ℚ
  latentPooled : List ℚ
  target : ℕ
deriving DecidableEq, Repr

/-- Computation `feature = torch.cat(squeezed_latent, 1)` for one sample: classifier
logits followed by the pooled layer representations. -/
def activationFeature (s : TrainSample) : List ℚ := s.logits ++ s.latentPooled

/-- Model of `torch.max(v, dim)[1]`: index of the first maximal element. -/
def argmaxFrom (i : ℕ) (bi : ℕ) (bv : ℚ) : List ℚ → ℕ
  | [] => bi
  | x :: xs => if bv < x then argmaxFrom (i + 1) i x xs else argmaxFrom (i + 1) bi bv xs

def argmaxIdx : List ℚ → ℕ
  | [] => 0
  | x :: xs => argmaxFrom 1 0 x xs

/-- The per-batch selection (running.py lines 583-588):
`predicted_category = torch.max(feature, dim=1)[1]`;
`idx = np.where(predicted_category == targets)`; keep `(tags, feats)`. -/
def batchCorrect (b : List TrainSample) : List (ℕ × List ℚ) :=
  b.filterMap (fun s =>
    if argmaxIdx (activationFeature s) = s.target
    then some (argmaxIdx (activationFeature s), activationFeature s)
    else none)

/-- Lists `correct_features`/`category_index` concatenated over all batches
(running.py lines 590-591). -/
def correctFeatures (batches : List (List TrainSample)) : List (ℕ × List ℚ) :=
  (batches.map batchCorrect).flatten

/-- Model of `torch.mean(stack, dim=0)`: the elementwise mean of a nonempty list of
equal-length vectors. -/
def meanVec (fs : List (List ℚ)) : List ℚ :=
  match fs with
  | [] => []
  | f :: rest => (rest.foldl vecAdd f).map (fun x => x / (((rest.length + 1 : ℕ)) : ℚ))

/-- The class-`c` Mean Activation Vector computed by
`make_weibull_from_trainsets` (running.py lines 592-603): group the kept
features by tag and average; a class with no kept feature has no entry
(`none`). -/
def SupervisedRunner.classMAV (batches : List (List TrainSample)) (c : ℕ) :
    Option (List ℚ) :=
  let feats := (correctFeatures batches).filterMap
    (fun p => if p.1 = c then some p.2 else none)
  if feats.isEmpty then none else some (meanVec feats)

/-- The class-`c` MAV as the claim states it: the mean of the activation
features over exactly those training samples of class `c` that the CLASSIFIER
classifies correctly, i.e. whose predicted class index — the argmax of the
classifier logits — equals their true label. -/
def classifierCorrectMAV (batches : List (List TrainSample)) (c : ℕ) :
    Option (List ℚ) :=
  let feats := ((batches.flatten).filter
      (fun s => decide (argmaxIdx s.logits = s.target ∧ s.target = c))).map
    activationFeature
  if feats.isEmpty then none else some (meanVec feats)

/-- C4: on a batch of two class-0 samples that the classifier classifies
correctly (argmax of logits = 0 = label for both), the code drops the first
sample — the argmax of its full concatenated feature `[3, 1, 10]` is 2, the
index of a pooled-latent entry, not of a logit — so the computed class-0 MAV
is `[2, 1, 0]` instead of the claimed mean `[5/2, 1, 5]` over both
correctly classified samples. -/
theorem classMAV_not_classifier_correct_mean :
    argmaxIdx (TrainSample.mk [3, 1] [10] 0).logits = 0 ∧
    argmaxIdx (TrainSample.mk [2, 1] [0] 0).logits = 0 ∧
    argmaxIdx (activationFeature (TrainSample.mk [3, 1] [10] 0)) = 2 ∧
    SupervisedRunner.classMAV
        [[TrainSample.mk [3, 1] [10] 0, TrainSample.mk [2, 1] [0] 0]] 0
      = some [2, 1, 0] ∧
    classifierCorrectMAV
        [[TrainSample.mk [3, 1] [10] 0, TrainSample.mk [2, 1] [0] 0]] 0
      = some [5 / 2, 1, 5] ∧
    SupervisedRunner.classMAV
        [[TrainSample.mk [3, 1] [10] 0, TrainSample.mk [2, 1] [0] 0]] 0
      ≠ classifierCorrectMAV
        [[TrainSample.mk [3, 1] [10] 0, TrainSample.mk [2, 1] [0] 0]] 0 := by
  refine ⟨rfl, rfl, rfl, ?_, ?_, ?_⟩
  · norm_num [SupervisedRunner.classMAV, correctFeatures, batchCorrect,
      List.filterMap_cons, activationFeature, argmaxIdx, argmaxFrom, meanVec,
      vecAdd]
  · norm_num [classifierCorrectMAV, List.filter_cons, activationFeature,
      argmaxIdx, argmaxFrom, meanVec, vecAdd]
  · intro h
    rw [show SupervisedRunner.classMAV
        [[TrainSample.mk [3, 1] [10] 0, TrainSample.mk [2, 1] [0] 0]] 0
      = some [2, 1, 0] by
        norm_num [SupervisedRunner.classMAV, correctFeatures, batchCorrect,
          List.filterMap_cons, activationFeature, argmaxIdx, argmaxFrom,
          meanVec, vecAdd]] at h
    rw [show classifierCorrectMAV
        [[TrainSample.mk [3, 1] [10] 0, TrainSample.mk [2, 1] [0] 0]] 0
      = some [5 / 2, 1, 5] by
        norm_num [classifierCorrectMAV, List.filter_cons, activationFeature,
          argmaxIdx, argmaxFrom, meanVec, vecAdd]] at h
    norm_num at h
